import Mathlib

/-!
Verification of the incremental extraction engine of `tap_emarsys/streams.py`.

Shallow embedding conventions:
* Calendar dates are modelled as natural numbers (day indices).  `pendulum`
  dates are totally ordered and `date.add(days=1)` is successor, and
  `to_date_string`/`pendulum.parse` round-trip, so a day index is a faithful
  model of a parsed date.  A date value that the code never parses is kept as
  a raw `String` (see `DateOrStr`), because Python raises `TypeError` when a
  `str` is compared with a `DateTime`.
* The API client, the record sink (`write_records`) and the state store
  (`ctx.write_state`) are external collaborators.  Provider responses are
  inputs; sink flushes and state writes are recorded as explicit events or
  returned batches.
* Fallible Python code (uncaught exceptions) is modelled with `Except String`;
  the message names the Python exception.
-/

namespace TapEmarsys

/-! ### Paginated collection fetchers (`paginate_contacts`, `sync_contact_list_memberships`) -/

/-- Provider model for a paged collection of `n` records with ids `0..n-1`:
a page request at `offset` with page size `limit` returns the window of ids
`offset..offset+limit-1` clipped to the collection.  This is the windowing
contract both `GET /contact/query/` and `GET /contactlist/{id}/` provide;
`POST /contact/getdata` returns exactly one row per requested id. -/
def pageOf (n limit offset : Nat) : List Nat :=
  ((List.range n).drop offset).take limit

/-- `paginate_contacts` (streams.py lines 66-86): fetch the id page at the
current cursor, fetch the records for those ids, flush the batch to the sink
(`write_records` runs unconditionally, before the exhaustion check), and
recurse while the fetched page is full.  The result is the ordered list of
flushed batches; `none` means the recursion did not terminate within `fuel`
self-invocations (the Python code recurses without any bound). -/
def paginate_contacts (n limit offset : Nat) : Nat → Option (List (List Nat))
  | 0 => none
  | fuel + 1 =>
    let contact_page := pageOf n limit offset
    if contact_page.length = limit then
      (paginate_contacts n limit (offset + limit) fuel).map (contact_page :: ·)
    else
      some [contact_page]

/-- `sync_contact_list_memberships` (streams.py lines 126-142): same page walk
over the membership ids of one contact list; each id becomes a record
`{contact_list_id, contact_id}` and the batch is flushed before the
exhaustion check. -/
def sync_contact_list_memberships (contact_list_id : String) (n limit offset : Nat) :
    Nat → Option (List (List (String × Nat)))
  | 0 => none
  | fuel + 1 =>
    let membership_ids := pageOf n limit offset
    let memberships := membership_ids.map (fun mid => (contact_list_id, mid))
    if membership_ids.length = limit then
      (sync_contact_list_memberships contact_list_id n limit (offset + limit) fuel).map
        (memberships :: ·)
    else
      some [memberships]

/-! ### Job polling (`sync_metric`, streams.py lines 159-183) -/

/-- One metric record as built at streams.py lines 176-181 (note: the record
holds `date`, `metric` and `contact_id` only; no campaign id). -/
structure MetricRecord where
  date : Nat
  metric : String
  contact_id : String
deriving DecidableEq

/-- Message of the `TypeError` raised at line 172 when the poll loop exhausts
all attempts: `data` is still the empty string `''` and `data['contact_ids']`
subscripts a `str` with a string key. -/
def pollTypeErrorMsg : String := "TypeError: string indices must be integers"

/-- The poll loop of `sync_metric` (lines 163-170).  `responses k` is the
provider's answer to the `k`-th `GET /email/{job}/responses` call (0-based):
`none` models the empty-string response `''`, `some ids` a ready result with
its `contact_ids`.  Returns the final value of `data` together with the list
of `time.sleep` durations performed (one `5` after every empty response). -/
def pollLoopF (responses : Nat → Option (List String)) :
    Nat → Nat → Option (List String) × List Nat
  | 0, _ => (none, [])
  | fuel + 1, num_attempts =>
    if num_attempts < 10 then
      match responses num_attempts with
      | some d => (some d, [])
      | none =>
        let r := pollLoopF responses fuel (num_attempts + 1)
        (r.1, 5 :: r.2)
    else (none, [])

/-- The poll loop entered with attempt counter `num_attempts`; the loop runs
at most `10 - num_attempts` more iterations, which the structural fuel of
`pollLoopF` makes explicit. -/
def pollLoop (responses : Nat → Option (List String)) (num_attempts : Nat) :
    Option (List String) × List Nat :=
  pollLoopF responses (10 - num_attempts) num_attempts

/-- `sync_metric` after job creation (lines 163-183), with `post_metric`
treated as the external job-creation collaborator.  Returns the sleep trace of
the poll loop and either an error or the list of `write_records` calls made
(each call is one batch of records).  A ready result whose contact id list is
exactly `[""]` returns early without calling `write_records` at all. -/
def sync_metric (responses : Nat → Option (List String)) (campaign_id metric : String)
    (date : Nat) : List Nat × Except String (List (List MetricRecord)) :=
  let r := pollLoop responses 0
  match r.1 with
  | none => (r.2, .error pollTypeErrorMsg)
  | some contact_ids =>
    if contact_ids.length = 1 ∧ contact_ids.head? = some "" then
      (r.2, .ok [])
    else
      (r.2, .ok [contact_ids.map (fun cid => ⟨date, metric, cid⟩)])

/-! ### Field catalog resolution and `sync_contacts` (streams.py lines 88-114) -/

/-- One raw provider field definition as consumed at lines 94-103. -/
structure RawField where
  id : String
  name : String
  application_type : String
deriving DecidableEq

/-- Modelled from the spec: `normalize_fieldname` lives in the missing module
`tap_emarsys/schemas.py`; per the spec it lowercases the name, replaces
non-alphanumeric characters by underscores and collapses repeated
underscores.  Helper: collapse runs of underscores. -/
def collapseUnderscoresF : Nat → List Char → List Char
  | 0, l => l
  | fuel + 1, [] => []
  | fuel + 1, '_' :: '_' :: rest => collapseUnderscoresF fuel ('_' :: rest)
  | fuel + 1, c :: rest => c :: collapseUnderscoresF fuel rest

/-- Collapse runs of underscores (each step shortens the list by one, so the
list length bounds the iteration count). -/
def collapseUnderscores (l : List Char) : List Char :=
  collapseUnderscoresF l.length l

/-- Modelled from the spec: `normalize_fieldname` from the missing module
`tap_emarsys/schemas.py` — "normalize its name (lowercase, non-alphanumeric
replaced by underscore, collapse repeats)". -/
def normalize_fieldname (s : String) : String :=
  String.mk (collapseUnderscores
    ((s.data.map Char.toLower).map (fun c => if c.isAlphanum then c else '_')))

/-- The per-field info dict built at lines 97-101. -/
structure FieldInfo where
  type : String
  name : String
  id : String
deriving DecidableEq

/-- Python dict lookup on an insertion-ordered association list: the latest
binding for a key wins. -/
def dictLookup (m : List (String × FieldInfo)) (k : String) : Option FieldInfo :=
  (m.reverse.find? (fun p => p.1 = k)).map (·.2)

/-- The selected-field resolution loop of `sync_contacts` (lines 106-112):
walk the schema properties in order; for each property whose schema has
`selected == True`, fail if its name is not among the available normalized
field names, else collect its field info.  The error message is the one built
at lines 110-111. -/
def select_fields (available : List String) (nameMap : List (String × FieldInfo)) :
    List (String × Option Bool) → Except String (List FieldInfo)
  | [] => .ok []
  | (prop, sel) :: rest =>
    if sel = some true then
      if prop ∈ available then
        match dictLookup nameMap prop with
        | none => .error "KeyError"
        | some fi =>
          match select_fields available nameMap rest with
          | .error e => .error e
          | .ok fis => .ok (fi :: fis)
      else
        .error ("Field `" ++ prop ++ "` not currently available from Emarsys")
    else
      select_fields available nameMap rest

/-- `sync_contacts` (lines 88-114): build the field maps from the raw provider
fields, resolve the selected schema properties, and only then paginate the
contacts.  The first component is the list of flushed contact pages: it is
`some []` on the error path because the missing-field check happens strictly
before `paginate_contacts` is first invoked, so no page is fetched and no
record written.  `props` is the ordered `(property, schema.selected)` list of
the contacts stream schema. -/
def sync_contacts (raw : List RawField) (props : List (String × Option Bool))
    (n limit fuel : Nat) : Option (List (List Nat)) × Except String Unit :=
  let infos := raw.map (fun rf =>
    ({ type := rf.application_type, name := normalize_fieldname rf.name, id := rf.id } : FieldInfo))
  let nameMap := infos.map (fun fi => (fi.name, fi))
  let available := nameMap.map (·.1)
  match select_fields available nameMap props with
  | .error e => (some [], .error e)
  | .ok _ => (paginate_contacts n limit 0 fuel, .ok ())

/-! ### Incremental metric sync state machine (`sync_metrics`, streams.py lines 185-244)

The machine is embedded as a trace generator: each `sync_metric` call (which
flushes that sync cell's records to the sink before returning) is one
`Event.cell`, and each `write_metrics_state` call (lines 185-189, invoked at
line 236) is one `Event.ckpt` carrying the persisted checkpoint.  The final
bookmark write at lines 242-244 would be `Event.finalWrite`. -/

/-- The resumable checkpoint persisted by `write_metrics_state`:
`campaigns_to_resume`, `metrics_to_resume` and `date_to_resume` (the date is
stored with `to_date_string()` and parsed back on restart; both directions
are the identity on day indices). -/
structure Ckpt where
  campaigns_to_resume : List String
  metrics_to_resume : List String
  date_to_resume : Nat
deriving DecidableEq

/-- Observable events of one `sync_metrics` run: a processed sync cell (the
`sync_metric` call, whose record flush happens inside it), a checkpoint
persisted by `write_metrics_state`, and the final `last_metric_date`
bookmark write of lines 242-244. -/
inductive Event where
  | cell (campaign metric : String) (date : Nat)
  | ckpt (k : Ckpt)
  | finalWrite (last_metric_date : Nat)
deriving DecidableEq

/-- A date value in `sync_metrics`.  Line 205 parses the configured
`start_date`, giving a real date (`dt`); line 208 replaces it with the raw
bookmark string `last_metric_date` without parsing (`raw`).  Comparing a raw
string with a date raises `TypeError` in Python. -/
inductive DateOrStr where
  | dt (day : Nat)
  | raw (s : String)
deriving DecidableEq

/-- `list.remove(x)` (Python): drop the first occurrence of `x`, or `none`
(a `ValueError`) when `x` is absent. -/
def removeFirst (x : String) : List String → Option (List String)
  | [] => none
  | y :: ys => if y = x then some ys else (removeFirst x ys).map (y :: ·)

/-- Message of the `ValueError` raised by `list.remove` on a missing value. -/
def removeValueErrorMsg : String := "ValueError: list.remove(x): x not in list"

/-- Message of the `TypeError` raised when the unparsed `last_metric_date`
string reaches the comparison `current_date <= end_date` at line 232. -/
def cmpTypeErrorMsg : String := "TypeError: cannot compare str with DateTime"

/-- Message of the `TypeError` raised when `metrics_to_resume` is absent from
the bookmark while `campaigns_to_resume` is present (`for metric in None`). -/
def iterNoneTypeErrorMsg : String := "TypeError: NoneType object is not iterable"

/-- Message of the `NameError` raised at line 242: `reset_stream` is called
but never defined in the module (line 8 imports `clear_bookmark` instead). -/
def resetStreamNameErrorMsg : String := "NameError: name reset_stream is not defined"

/-- The module-level names bound in `tap_emarsys/streams.py`: its imports
(lines 1-18) and its own `def`s.  Python resolves a bare name against these
bindings; a name not among them raises `NameError`. -/
def streamsModuleNames : List String :=
  ["time", "partial", "singer", "pendulum", "requests", "metadata",
   "write_bookmark", "clear_bookmark", "limits", "sleep_and_retry",
   "RateLimitException", "on_exception", "expo", "IDS",
   "get_contacts_raw_fields", "get_contact_field_type", "normalize_fieldname",
   "METRICS_AVAILABLE", "LOGGER", "metrics", "write_records", "base_transform",
   "sync_campaigns", "transform_contact", "paginate_contacts", "sync_contacts",
   "sync_contact_lists", "sync_contact_list_memberships",
   "sync_contact_lists_memberships", "post_metric", "sync_metric",
   "write_metrics_state", "sync_metrics", "sync_selected_streams"]

/-- The inner date loop (lines 230-236): while `current_date <= end_date`,
run the sync cell, advance the date, and persist a checkpoint carrying the
*current* `campaigns_to_resume` and `metrics_to_resume` lists and the next
date (`date_to_resume = current_date` after the increment — it may exceed
`end_date`, see the TODO at line 235). -/
def dateLoopF (campaign metric : String) (ctr mtr : List String) :
    Nat → Nat → Nat → List Event
  | 0, _, _ => []
  | fuel + 1, cur, e =>
    if cur ≤ e then
      .cell campaign metric cur :: .ckpt ⟨ctr, mtr, cur + 1⟩ ::
        dateLoopF campaign metric ctr mtr fuel (cur + 1) e
    else []

/-- The date loop entered at `cur`; it runs `e + 1 - cur` iterations, which
the structural fuel of `dateLoopF` makes explicit. -/
def dateLoop (campaign metric : String) (ctr mtr : List String) (cur e : Nat) : List Event :=
  dateLoopF campaign metric ctr mtr (e + 1 - cur) cur e

/-- The metric loop of one campaign (lines 229-238): iterate
`campaign_metrics` (`cm`); per metric the first date is `last_date or
start_date` (the resume date applies only to the first metric); after the
date loop the metric is removed from `metrics_to_resume` (`mtr`) with
`list.remove`.  `startV` is the (possibly raw, unparsed) start date. -/
def metricLoop (campaign : String) (ctr : List String) (startV : DateOrStr) (e : Nat) :
    List String → List String → Option Nat → List Event × Except String Unit
  | _, [], _ => ([], .ok ())
  | mtr, metric :: rest, last_date =>
    match (match last_date with | some d => DateOrStr.dt d | none => startV) with
    | .raw _ => ([], .error cmpTypeErrorMsg)
    | .dt cur =>
      let evs := dateLoop campaign metric ctr mtr cur e
      match removeFirst metric mtr with
      | none => (evs, .error removeValueErrorMsg)
      | some mtr' =>
        let r := metricLoop campaign ctr startV e mtr' rest none
        (evs ++ r.1, r.2)

/-- The campaign loop (lines 227-240): iterate the campaign id list; each
campaign starts with a fresh `metrics_to_resume = metrics_selected.copy()`
(line 228 — note: the full selected set, not the resumed remainder); after
its metrics the campaign is removed from `campaigns_to_resume` (`ctr`) and
`campaign_metrics` is reset to the full `metrics_selected`. -/
def campaignLoop (metrics_selected : List String) (startV : DateOrStr) (e : Nat) :
    List String → List String → List String → Option Nat → List Event × Except String Unit
  | _, [], _, _ => ([], .ok ())
  | ctr, c :: rest, cm, last_date =>
    let r1 := metricLoop c ctr startV e metrics_selected cm last_date
    match r1.2 with
    | .error err => (r1.1, .error err)
    | .ok _ =>
      match removeFirst c ctr with
      | none => (r1.1, .error removeValueErrorMsg)
      | some ctr' =>
        let r2 := campaignLoop metrics_selected startV e ctr' rest metrics_selected none
        (r1.1 ++ r2.1, r2.2)

/-- The `metrics` bookmark as read at line 193.  `date_to_resume` is parsed
(line 216) so it is a day index; `last_metric_date` is consumed raw at line
208 so it stays a string. -/
structure MetricsBookmark where
  campaigns_to_resume : Option (List String) := none
  metrics_to_resume : Option (List String) := none
  date_to_resume : Option Nat := none
  last_metric_date : Option String := none
deriving DecidableEq

/-- A campaign record as produced by `sync_campaigns` (deleted marker is
`None` or a date string). -/
structure Campaign where
  id : String
  deleted : Option String
deriving DecidableEq

/-- The tap configuration dates (both parsed with `pendulum.parse`). -/
structure Config where
  start_date : Nat
  end_date : Nat
deriving DecidableEq

/-- `sync_metrics` (lines 191-244).  `metrics_selected` is the configured
metric subset resolved from the catalog metadata (line 195-203).  Startup
(lines 205-226): the parsed configured start date is replaced by the *raw*
`last_metric_date` bookmark string when present (line 208); if
`campaigns_to_resume` is truthy (present and nonempty) the campaign/metric
universe is taken from the bookmark, else it is derived from the non-deleted
campaigns and the full metric selection.  After the loop, line 242 calls
`reset_stream`, a name the module never binds. -/
def sync_metrics_loop (cfg : Config) (bm : MetricsBookmark) (metrics_selected : List String)
    (campaigns : List Campaign) : List Event × Except String Unit :=
  let startV : DateOrStr :=
    match bm.last_metric_date with
    | some s => .raw s
    | none => .dt cfg.start_date
  match bm.campaigns_to_resume with
  | some (c :: cs) =>
    match bm.metrics_to_resume with
    | none => ([], Except.error iterNoneTypeErrorMsg)
    | some cm =>
      campaignLoop metrics_selected startV cfg.end_date (c :: cs) (c :: cs) cm
        bm.date_to_resume
  | _ =>
    let campaign_ids := (campaigns.filter (fun x => x.deleted.isNone)).map (·.id)
    campaignLoop metrics_selected startV cfg.end_date campaign_ids campaign_ids
      metrics_selected none

/-- `sync_metrics`: the loop above followed by lines 242-244 (clear the
checkpoint, record `last_metric_date = end_date`, persist) — which start by
resolving the name `reset_stream` against the module's bindings. -/
def sync_metrics (cfg : Config) (bm : MetricsBookmark) (metrics_selected : List String)
    (campaigns : List Campaign) : List Event × Except String Unit :=
  let r := sync_metrics_loop cfg bm metrics_selected campaigns
  match r.2 with
  | .error err => (r.1, .error err)
  | .ok _ =>
    if streamsModuleNames.contains "reset_stream" then
      (r.1 ++ [.finalWrite cfg.end_date], .ok ())
    else
      (r.1, .error resetStreamNameErrorMsg)

/-- Decidable equality of `Except` results, so that concrete runs can be
evaluated inside proofs. -/
instance {ε α : Type} [DecidableEq ε] [DecidableEq α] : DecidableEq (Except ε α) := fun x y =>
  match x, y with
  | .error a, .error b =>
    if h : a = b then .isTrue (by rw [h]) else .isFalse (by intro hh; cases hh; exact h rfl)
  | .error _, .ok _ => .isFalse (by intro h; cases h)
  | .ok _, .error _ => .isFalse (by intro h; cases h)
  | .ok a, .ok b =>
    if h : a = b then .isTrue (by rw [h]) else .isFalse (by intro hh; cases hh; exact h rfl)

/-! ### Canonical cell sets (specification side) -/

/-- A sync cell `(campaign, metric, date)`. -/
abbrev Cell := String × String × Nat

/-- The cells flushed in a trace. -/
def cellsOf (evs : List Event) : List Cell :=
  evs.filterMap (fun e => match e with | .cell c m d => some (c, m, d) | _ => none)

/-- The checkpoints persisted in a trace. -/
def ckptsOf (evs : List Event) : List Ckpt :=
  evs.filterMap (fun e => match e with | .ckpt k => some k | _ => none)

def dateRangeF : Nat → Nat → Nat → List Nat
  | 0, _, _ => []
  | fuel + 1, cur, e => if cur ≤ e then cur :: dateRangeF fuel (cur + 1) e else []

/-- The dates `cur..e` inclusive. -/
def dateRange (cur e : Nat) : List Nat :=
  dateRangeF (e + 1 - cur) cur e

/-- The cells of one (campaign, metric) pair over `cur..e`. -/
def cellsFor (c m : String) (cur e : Nat) : List Cell :=
  (dateRange cur e).map (fun d => (c, m, d))

/-- The cells of one campaign over a metric list; an optional resume date
applies to the first metric only. -/
def metricCells (c : String) (s e : Nat) : List String → Option Nat → List Cell
  | [], _ => []
  | m :: rest, last_date => cellsFor c m (last_date.getD s) e ++ metricCells c s e rest none

/-- The cells of a campaign list; the first campaign runs over `cm` (its
remaining metrics), later campaigns over the full selection `ms`. -/
def campaignCells (ms : List String) (s e : Nat) :
    List String → List String → Option Nat → List Cell
  | [], _, _ => []
  | c :: rest, cm, last_date =>
    metricCells c s e cm last_date ++ campaignCells ms s e rest ms none

/-- A trace is an alternation of `(cell, checkpoint)` pairs in which every
checkpoint immediately follows the sync cell it records progress past: the
checkpoint's campaign list is headed by that cell's campaign and its
`date_to_resume` is that cell's date plus one.  Every trace `sync_metrics`
produces satisfies this (flush-then-checkpoint). -/
inductive PairedTrace : List Event → Prop
  | nil : PairedTrace []
  | pair (c m : String) (d : Nat) (k : Ckpt) (rest : List Event)
      (hc : k.campaigns_to_resume.head? = some c)
      (hd : k.date_to_resume = d + 1)
      (h : PairedTrace rest) :
      PairedTrace (.cell c m d :: .ckpt k :: rest)

/-- A schema property selected for the contacts stream whose name matches no
normalized provider field name (the configuration-error condition of
`sync_contacts`). -/
def missingSelected (raw : List RawField) (props : List (String × Option Bool)) : Prop :=
  ∃ p, (p, some true) ∈ props ∧ p ∉ raw.map (fun rf => normalize_fieldname rf.name)

/-! ## Theorems -/

/-! ### Loop unfolding equations -/

/-- `dateLoop` satisfies the natural while-loop unfolding. -/
theorem dateLoop_eq (campaign metric : String) (ctr mtr : List String) (cur e : Nat) :
    dateLoop campaign metric ctr mtr cur e
      = if cur ≤ e then
          .cell campaign metric cur :: .ckpt ⟨ctr, mtr, cur + 1⟩ ::
            dateLoop campaign metric ctr mtr (cur + 1) e
        else [] := by
  unfold dateLoop
  by_cases h : cur ≤ e
  · rw [show e + 1 - cur = (e + 1 - (cur + 1)) + 1 by omega]
    simp [dateLoopF, h]
  · rw [show e + 1 - cur = 0 by omega]
    simp [dateLoopF, h]

/-- `dateRange` satisfies the natural unfolding. -/
theorem dateRange_eq (cur e : Nat) :
    dateRange cur e = if cur ≤ e then cur :: dateRange (cur + 1) e else [] := by
  unfold dateRange
  by_cases h : cur ≤ e
  · rw [show e + 1 - cur = (e + 1 - (cur + 1)) + 1 by omega]
    simp [dateRangeF, h]
  · rw [show e + 1 - cur = 0 by omega]
    simp [dateRangeF, h]

/-- `pollLoop` satisfies the natural while-loop unfolding. -/
theorem pollLoop_eq (responses : Nat → Option (List String)) (num_attempts : Nat) :
    pollLoop responses num_attempts
      = if num_attempts < 10 then
          match responses num_attempts with
          | some d => (some d, [])
          | none =>
            let r := pollLoop responses (num_attempts + 1)
            (r.1, 5 :: r.2)
        else (none, []) := by
  unfold pollLoop
  by_cases h : num_attempts < 10
  · rw [show 10 - num_attempts = (10 - (num_attempts + 1)) + 1 by omega]
    simp only [pollLoopF, h, if_true]
  · rw [show 10 - num_attempts = 0 by omega]
    simp [pollLoopF, h]

/-! ### Pagination (claim C3) -/

/-- The page windows have length `min limit (n - offset)`. -/
theorem pageOf_length (n limit offset : Nat) :
    (pageOf n limit offset).length = min limit (n - offset) := by
  simp [pageOf]

/-- Full behaviour of the recursive page walk: with a positive page size and
enough fuel it terminates, flushes `(n - offset) / limit + 1` batches whose
concatenation is exactly the remaining records, and the final batch is the
first short page. -/
theorem paginate_contacts_spec (limit : Nat) (hl : 0 < limit) :
    ∀ fuel offset n, (n - offset) / limit < fuel →
      ∃ bs, paginate_contacts n limit offset fuel = some bs ∧
        bs.length = (n - offset) / limit + 1 ∧
        bs.flatten = (List.range n).drop offset ∧
        ∃ last, bs.getLast? = some last ∧ last.length < limit := by
  intro fuel
  induction fuel with
  | zero => intro offset n h; exact absurd h (Nat.not_lt_zero _)
  | succ fuel ih =>
    intro offset n h
    by_cases hc : (pageOf n limit offset).length = limit
    · have hle : limit ≤ n - offset := by
        rw [pageOf_length] at hc
        exact min_eq_left_iff.mp hc
      have hsub : n - (offset + limit) = n - offset - limit := by omega
      have hdiv : (n - offset) / limit = (n - (offset + limit)) / limit + 1 := by
        rw [hsub, Nat.div_eq_sub_div hl hle]
      obtain ⟨bs, hbs, hblen, hbj, last, hlast, hlastlen⟩ :=
        ih (offset + limit) n (by omega)
      refine ⟨pageOf n limit offset :: bs, ?_, ?_, ?_, last, ?_, hlastlen⟩
      · simp [paginate_contacts, hc, hbs]
      · simp [hblen, hdiv]
      · rw [List.flatten_cons, hbj, pageOf]
        rw [← List.drop_drop limit offset (List.range n)]
        exact List.take_append_drop limit ((List.range n).drop offset)
      · cases bs with
        | nil => simp at hlast
        | cons b bs' => rw [← hlast]; exact List.getLast?_cons_cons
    · have hlt : n - offset < limit := by
        rw [pageOf_length] at hc
        omega
      refine ⟨[pageOf n limit offset], ?_, ?_, ?_, pageOf n limit offset, rfl, ?_⟩
      · simp [paginate_contacts, hc]
      · simp [Nat.div_eq_of_lt hlt]
      · simp only [List.flatten_cons, List.flatten_nil, List.append_nil, pageOf]
        exact List.take_of_length_le (by simp; omega)
      · rw [pageOf_length]; omega

/-- The membership walk is the contacts walk with each id wrapped into a
`{contact_list_id, contact_id}` record. -/
theorem sync_contact_list_memberships_eq (clid : String) (limit : Nat) :
    ∀ fuel n offset,
      sync_contact_list_memberships clid n limit offset fuel
        = (paginate_contacts n limit offset fuel).map
            (List.map (List.map (fun i => (clid, i)))) := by
  intro fuel
  induction fuel with
  | zero => intro n offset; rfl
  | succ fuel ih =>
    intro n offset
    simp only [sync_contact_list_memberships, paginate_contacts, List.length_map]
    by_cases hc : (pageOf n limit offset).length = limit
    · simp [hc, ih, Option.map_map, Function.comp_def]
    · simp [hc]

/-- Claim C3 counterexample: with `N = 4` records and page size `L = 2`
(`L` divides `N`), `paginate_contacts` flushes 3 page batches to the sink —
a trailing empty batch — while `ceil(N/L) = (N + L - 1) / L = 2`.  The claim
"exactly ceil(N/L) page batches" is therefore false. -/
theorem paginate_contacts_ceil_counterexample :
    (paginate_contacts 4 2 0 5).map List.length ≠ some ((4 + 2 - 1) / 2) ∧
    (paginate_contacts 4 2 0 5).map List.length = some 3 := by decide

/-- Claim C3 (amended): a paginated fetch over `N` records with page size
`L > 0` emits exactly `N / L + 1` page batches (one more than `ceil(N/L)`
when `L` divides `N`, the final batch then being empty) and `N` total
records, terminating on the first page with fewer than `L` records; the
membership walk emits the same batches wrapped into membership records. -/
theorem pagination_batches_and_records (n limit fuel : Nat) (clid : String)
    (hl : 0 < limit) (hf : n / limit < fuel) :
    ∃ bs, paginate_contacts n limit 0 fuel = some bs ∧
      bs.length = n / limit + 1 ∧
      bs.flatten = List.range n ∧
      (∃ last, bs.getLast? = some last ∧ last.length < limit) ∧
      sync_contact_list_memberships clid n limit 0 fuel
        = some (bs.map (List.map (fun i => (clid, i)))) := by
  obtain ⟨bs, h1, h2, h3, h4⟩ :=
    paginate_contacts_spec limit hl fuel 0 n (by simpa using hf)
  refine ⟨bs, h1, by simpa using h2, by simpa using h3, h4, ?_⟩
  rw [sync_contact_list_memberships_eq, h1]
  rfl

/-- Witness for `pagination_batches_and_records` at `N = 5`, `L = 2`. -/
theorem pagination_batches_and_records_witness :
    0 < 2 ∧ 5 / 2 < 4 ∧
    ∃ bs, paginate_contacts 5 2 0 4 = some bs ∧
      bs.length = 5 / 2 + 1 ∧
      bs.flatten = List.range 5 ∧
      (∃ last, bs.getLast? = some last ∧ last.length < 2) ∧
      sync_contact_list_memberships "cl1" 5 2 0 4
        = some (bs.map (List.map (fun i => ("cl1", i)))) :=
  ⟨by decide, by decide,
    pagination_batches_and_records 5 2 4 "cl1" (by decide) (by decide)⟩

/-! ### Job polling (claims C5 and C8) -/

/-- If every remaining attempt returns the empty result, the poll loop ends
with `data = ''` after sleeping 5 seconds once per attempt. -/
theorem pollLoop_all_empty (responses : Nat → Option (List String)) :
    ∀ n a, 10 - a = n → (∀ k, a ≤ k → k < 10 → responses k = none) →
      pollLoop responses a = (none, List.replicate n 5) := by
  intro n
  induction n with
  | zero =>
    intro a ha _
    rw [pollLoop_eq]
    have h10 : ¬ a < 10 := by omega
    simp [h10]
  | succ n ih =>
    intro a ha h
    have ha10 : a < 10 := by omega
    rw [pollLoop_eq]
    simp only [ha10, if_true]
    rw [h a le_rfl ha10, ih (a + 1) (by omega) (fun k hk1 hk2 => h k (by omega) hk2)]
    rfl

/-- If attempt `k` is the first non-empty response, the poll loop returns it
after `k - a` sleeps. -/
theorem pollLoop_first_ready (responses : Nat → Option (List String)) (k : Nat)
    (ids : List String) (hk : k < 10) (hr : responses k = some ids) :
    ∀ n a, k - a = n → a ≤ k → (∀ j, a ≤ j → j < k → responses j = none) →
      pollLoop responses a = (some ids, List.replicate n 5) := by
  intro n
  induction n with
  | zero =>
    intro a ha hak _
    have hek : a = k := by omega
    subst hek
    rw [pollLoop_eq]
    simp [hk, hr]
  | succ n ih =>
    intro a ha hak h
    have ha10 : a < 10 := by omega
    rw [pollLoop_eq]
    simp only [ha10, if_true]
    rw [h a le_rfl (by omega), ih (a + 1) (by omega) (by omega)
      (fun j hj1 hj2 => h j (by omega) hj2)]
    rfl

/-- The poll loop consults only the first ten responses. -/
theorem pollLoop_frame (responses responses2 : Nat → Option (List String))
    (hagree : ∀ j, j < 10 → responses j = responses2 j) :
    ∀ n a, 10 - a = n → pollLoop responses a = pollLoop responses2 a := by
  intro n
  induction n with
  | zero =>
    intro a ha
    rw [pollLoop_eq responses a, pollLoop_eq responses2 a]
    have h10 : ¬ a < 10 := by omega
    simp [h10]
  | succ n ih =>
    intro a ha
    have ha10 : a < 10 := by omega
    rw [pollLoop_eq responses a, pollLoop_eq responses2 a]
    simp only [ha10, if_true]
    rw [hagree a ha10]
    cases responses2 a with
    | some d => rfl
    | none => rw [ih (a + 1) (by omega)]

/-- Claim C5: after job creation, `sync_metric` polls the result resource at
a fixed 5-second interval for at most 10 attempts.  (1) If all 10 attempts
return the empty result the cell fails with a fatal `TypeError` — it is not
treated as an empty success.  (2) A non-empty response at attempt `k` is
treated as ready, after exactly `k` five-second sleeps.  (3) The outcome
depends only on the first 10 responses. -/
theorem sync_metric_poll_bounds (responses : Nat → Option (List String))
    (campaign_id metric : String) (date : Nat) :
    ((∀ k, k < 10 → responses k = none) →
      sync_metric responses campaign_id metric date
        = (List.replicate 10 5, .error pollTypeErrorMsg)) ∧
    (∀ k ids, k < 10 → responses k = some ids → (∀ j, j < k → responses j = none) →
      pollLoop responses 0 = (some ids, List.replicate k 5)) ∧
    (∀ responses2, (∀ j, j < 10 → responses j = responses2 j) →
      sync_metric responses campaign_id metric date
        = sync_metric responses2 campaign_id metric date) := by
  refine ⟨?_, ?_, ?_⟩
  · intro h
    have hp := pollLoop_all_empty responses 10 0 rfl (fun k _ hk => h k hk)
    simp only [sync_metric, hp]
  · intro k ids hk hr h
    exact pollLoop_first_ready responses k ids hk hr k 0 rfl (Nat.zero_le k)
      (fun j _ hj => h j hj)
  · intro responses2 hagree
    have hp := pollLoop_frame responses responses2 hagree 10 0 rfl
    simp only [sync_metric, hp]

/-- Witness for `sync_metric_poll_bounds`: with every poll answered by the
empty result, the cell fails with the `TypeError` after ten 5-second
sleeps. -/
theorem sync_metric_poll_bounds_witness :
    sync_metric (fun _ => none) "1" "open" 0
      = (List.replicate 10 5, .error pollTypeErrorMsg) :=
  (sync_metric_poll_bounds (fun _ => none) "1" "open" 0).1 (fun _ _ => rfl)

/-- A contact id list satisfies the zero-match test of line 172 exactly when
it is `[""]`. -/
theorem singleton_empty_iff (ids : List String) :
    (ids.length = 1 ∧ ids.head? = some "") ↔ ids = [""] := by
  cases ids with
  | nil => simp
  | cons a t =>
    cases t with
    | nil => simp [eq_comm]
    | cons b t2 => simp

/-- Claim C8: when the poll loop returns a ready result, a contact id list of
exactly `[""]` produces no `write_records` call at all (zero records, no
error); any other ready result produces one batch with exactly one record
`{date, metric, contact_id}` per contact id. -/
theorem sync_metric_ready_result (responses : Nat → Option (List String))
    (campaign_id metric : String) (date : Nat) (ids : List String) (sleeps : List Nat)
    (hp : pollLoop responses 0 = (some ids, sleeps)) :
    (ids = [""] → sync_metric responses campaign_id metric date = (sleeps, .ok [])) ∧
    (ids ≠ [""] →
      sync_metric responses campaign_id metric date
        = (sleeps, .ok [ids.map (fun cid => (⟨date, metric, cid⟩ : MetricRecord))]) ∧
      (ids.map (fun cid => (⟨date, metric, cid⟩ : MetricRecord))).length = ids.length) := by
  constructor
  · intro he
    have hcond : ids.length = 1 ∧ ids.head? = some "" := (singleton_empty_iff ids).mpr he
    simp only [sync_metric, hp, hcond, and_self, if_true]
  · intro he
    have hcond : ¬ (ids.length = 1 ∧ ids.head? = some "") := fun hc =>
      he ((singleton_empty_iff ids).mp hc)
    simp only [sync_metric, hp, hcond, if_false, List.length_map, and_true]

/-- Witness for `sync_metric_ready_result`: a first-poll-ready result
`{contact_ids: [""]}` writes nothing and succeeds. -/
theorem sync_metric_ready_result_witness :
    pollLoop (fun _ => some [""]) 0 = (some [""], []) ∧
    sync_metric (fun _ => some [""]) "1" "open" 3 = ([], .ok []) :=
  ⟨rfl, (sync_metric_ready_result (fun _ => some [""]) "1" "open" 3 [""] [] rfl).1 rfl⟩

/-! ### Missing selected field (claim C9) -/

/-- Every name among the keys of the field-name map has a dict entry. -/
theorem dictLookup_isSome (nameMap : List (String × FieldInfo)) (p : String)
    (hp : p ∈ nameMap.map (·.1)) : (dictLookup nameMap p).isSome := by
  have hfind : (nameMap.reverse.find? (fun q => q.1 = p)).isSome := by
    rw [List.find?_isSome]
    obtain ⟨q, hq, hq1⟩ := List.mem_map.mp hp
    exact ⟨q, List.mem_reverse.mpr hq, by simp [hq1]⟩
  obtain ⟨q, hq⟩ := Option.isSome_iff_exists.mp hfind
  simp [dictLookup, hq]

/-- The selected-field loop fails exactly when some selected property is not
among the available names, and the error message names such a property. -/
theorem select_fields_error_iff (nameMap : List (String × FieldInfo)) :
    ∀ props : List (String × Option Bool),
      ((∃ e, select_fields (nameMap.map (·.1)) nameMap props = .error e) ↔
        ∃ p, (p, some true) ∈ props ∧ p ∉ nameMap.map (·.1)) ∧
      (∀ e, select_fields (nameMap.map (·.1)) nameMap props = .error e →
        ∃ p, (p, some true) ∈ props ∧ p ∉ nameMap.map (·.1) ∧
          e = "Field `" ++ p ++ "` not currently available from Emarsys") := by
  intro props
  induction props with
  | nil => simp [select_fields]
  | cons pr rest ih =>
    obtain ⟨prop, sel⟩ := pr
    by_cases hsel : sel = some true
    · subst hsel
      by_cases hav : prop ∈ nameMap.map (·.1)
      · obtain ⟨fi, hfi⟩ :=
          Option.isSome_iff_exists.mp (dictLookup_isSome nameMap prop hav)
        have hstep : select_fields (nameMap.map (·.1)) nameMap ((prop, some true) :: rest)
            = match select_fields (nameMap.map (·.1)) nameMap rest with
              | .error e => .error e
              | .ok fis => .ok (fi :: fis) := by
          simp [select_fields, hav, hfi]
        cases hrec : select_fields (nameMap.map (·.1)) nameMap rest with
        | error e2 =>
          rw [hrec] at hstep
          obtain ⟨p, hp1, hp2, hp3⟩ := ih.2 e2 hrec
          constructor
          · rw [hstep]
            constructor
            · intro _
              exact ⟨p, List.mem_cons_of_mem _ hp1, hp2⟩
            · intro _
              exact ⟨e2, rfl⟩
          · intro e he
            rw [hstep] at he
            cases he
            exact ⟨p, List.mem_cons_of_mem _ hp1, hp2, hp3⟩
        | ok fis =>
          rw [hrec] at hstep
          constructor
          · rw [hstep]
            constructor
            · intro ⟨e, he⟩
              cases he
            · intro ⟨p, hp1, hp2⟩
              rcases List.mem_cons.mp hp1 with hp | hp
              · cases hp
                exact absurd hav hp2
              · obtain ⟨e, he⟩ := ih.1.mpr ⟨p, hp, hp2⟩
                rw [he] at hrec
                cases hrec
          · intro e he
            rw [hstep] at he
            cases he
      · have hstep : select_fields (nameMap.map (·.1)) nameMap ((prop, some true) :: rest)
            = .error ("Field `" ++ prop ++ "` not currently available from Emarsys") := by
          simp [select_fields, hav]
        constructor
        · rw [hstep]
          constructor
          · intro _
            exact ⟨prop, List.mem_cons_self _ _, hav⟩
          · intro _
            exact ⟨_, rfl⟩
        · intro e he
          rw [hstep] at he
          cases he
          exact ⟨prop, List.mem_cons_self _ _, hav, rfl⟩
    · have hstep : select_fields (nameMap.map (·.1)) nameMap ((prop, sel) :: rest)
          = select_fields (nameMap.map (·.1)) nameMap rest := by
        simp [select_fields, hsel]
      constructor
      · rw [hstep, ih.1]
        constructor
        · intro ⟨p, hp1, hp2⟩
          exact ⟨p, List.mem_cons_of_mem _ hp1, hp2⟩
        · intro ⟨p, hp1, hp2⟩
          rcases List.mem_cons.mp hp1 with hp | hp
          · cases hp
            exact absurd rfl hsel
          · exact ⟨p, hp, hp2⟩
      · intro e he
        rw [hstep] at he
        obtain ⟨p, hp1, hp2, hp3⟩ := ih.2 e he
        exact ⟨p, List.mem_cons_of_mem _ hp1, hp2, hp3⟩

/-- The field-name map `sync_contacts` builds from the raw provider fields. -/
def contactsNameMap (raw : List RawField) : List (String × FieldInfo) :=
  (raw.map (fun rf =>
    ({ type := rf.application_type, name := normalize_fieldname rf.name,
       id := rf.id } : FieldInfo))).map (fun fi => (fi.name, fi))

/-- The available names computed inside `sync_contacts` are the normalized
raw field names. -/
theorem contactsNameMap_keys (raw : List RawField) :
    (contactsNameMap raw).map (·.1) = raw.map (fun rf => normalize_fieldname rf.name) := by
  simp [contactsNameMap, List.map_map, Function.comp_def]

/-- `sync_contacts` is the selected-field resolution followed, only on
success, by the page walk. -/
theorem sync_contacts_eq (raw : List RawField) (props : List (String × Option Bool))
    (n limit fuel : Nat) :
    sync_contacts raw props n limit fuel
      = match select_fields ((contactsNameMap raw).map (·.1)) (contactsNameMap raw) props with
        | .error e => (some [], .error e)
        | .ok _ => (paginate_contacts n limit 0 fuel, .ok ()) := by
  rfl

/-- Claim C9: `sync_contacts` fails if and only if some schema property
marked selected has no field descriptor with that normalized name among the
provider's raw fields; on failure the error names such a missing property
and no contact page has been fetched nor any record written (the
fetched-page list is empty). -/
theorem sync_contacts_missing_field (raw : List RawField)
    (props : List (String × Option Bool)) (n limit fuel : Nat) :
    ((∃ e, (sync_contacts raw props n limit fuel).2 = .error e) ↔
      missingSelected raw props) ∧
    (∀ e, (sync_contacts raw props n limit fuel).2 = .error e →
      (sync_contacts raw props n limit fuel).1 = some [] ∧
      ∃ p, (p, some true) ∈ props ∧
        p ∉ raw.map (fun rf => normalize_fieldname rf.name) ∧
        e = "Field `" ++ p ++ "` not currently available from Emarsys") := by
  have hmaps := select_fields_error_iff (contactsNameMap raw) props
  rw [contactsNameMap_keys raw] at hmaps
  have havail : ((contactsNameMap raw).map (·.1)) = raw.map (fun rf => normalize_fieldname rf.name) :=
    contactsNameMap_keys raw
  constructor
  · rw [show missingSelected raw props
        = (∃ p, (p, some true) ∈ props ∧
            p ∉ raw.map (fun rf => normalize_fieldname rf.name)) from rfl, ← hmaps.1]
    rw [sync_contacts_eq, havail]
    cases hrec : select_fields (raw.map (fun rf => normalize_fieldname rf.name))
        (contactsNameMap raw) props with
    | error e2 => simp
    | ok fis => simp
  · intro e he
    rw [sync_contacts_eq, havail] at he
    cases hrec : select_fields (raw.map (fun rf => normalize_fieldname rf.name))
        (contactsNameMap raw) props with
    | error e2 =>
      rw [hrec] at he
      cases he
      refine ⟨?_, hmaps.2 e hrec⟩
      rw [sync_contacts_eq, havail, hrec]
    | ok fis =>
      rw [hrec] at he
      cases he

/-- Witness for `sync_contacts_missing_field`: selecting `age` when the only
raw field normalizes to `first_name` aborts with the error naming `age`,
before any page fetch. -/
theorem sync_contacts_missing_field_witness :
    (sync_contacts [⟨"3", "First Name", "shorttext"⟩] [("age", some true)] 7 2 9).2
      = .error "Field `age` not currently available from Emarsys" ∧
    (sync_contacts [⟨"3", "First Name", "shorttext"⟩] [("age", some true)] 7 2 9).1
      = some [] ∧
    ∃ p, (p, some true) ∈ [("age", some true)] ∧
      p ∉ [⟨"3", "First Name", "shorttext"⟩].map
        (fun rf : RawField => normalize_fieldname rf.name) ∧
      "Field `age` not currently available from Emarsys"
        = "Field `" ++ p ++ "` not currently available from Emarsys" :=
  ⟨by decide,
    (sync_contacts_missing_field [⟨"3", "First Name", "shorttext"⟩]
      [("age", some true)] 7 2 9).2
      "Field `age` not currently available from Emarsys" (by decide)⟩

/-! ### Completion bug (claim C1) -/

/-- Claim C1 evaluated at the failing input: a metric sync run that completes
the campaign loop — here the edge case of an empty campaign universe —
reaches line 242, where the undefined name `reset_stream` raises `NameError`;
the checkpoint is never cleared, `last_metric_date` is never written (no
`finalWrite` event) and the run does not return without error. -/
theorem sync_metrics_completion_raises_nameerror :
    sync_metrics ⟨0, 5⟩ {} ["open"] [] = ([], .error resetStreamNameErrorMsg) ∧
    "reset_stream" ∉ streamsModuleNames := by decide

/-! ### Fresh-start date bug (claim C4) -/

/-- Claim C4 evaluated at the failing input: a fresh run (no
`campaigns_to_resume`) whose bookmark holds `last_metric_date = "2021-01-01"`
with configured start date day 5.  Line 208 substitutes the *raw bookmark
string* for the parsed start date (it is never `pendulum.parse`d, and no
maximum with the configured start date is taken), so the first loop
comparison `current_date <= end_date` raises `TypeError`; no date at all is
processed instead of starting at the later of the two dates. -/
theorem sync_metrics_last_metric_date_type_error :
    sync_metrics ⟨5, 10⟩ ⟨none, none, none, some "2021-01-01"⟩ ["open"] [⟨"1", none⟩]
      = ([], .error cmpTypeErrorMsg) := by decide

/-! ### Checkpoint restart scenario (claim C6) -/

/-- Claim C6: restarting from the checkpoint
`{campaigns_to_resume: ["5"], metrics_to_resume: ["click"], date_to_resume:
2021-03-02}` (day 60 with day 0 = the configured start date 2021-01-01), the
first processed sync cell is campaign 5, metric click, day 60 — not the
configured start date (day 0) — and no cell of any other campaign (the
campaign argument holds campaign "1") nor any date before the resume date is
processed: the campaign/metric universe is not re-derived. -/
theorem sync_metrics_checkpoint_restart_scenario :
    (cellsOf (sync_metrics ⟨0, 61⟩ ⟨some ["5"], some ["click"], some 60, none⟩
        ["open", "click"] [⟨"1", none⟩]).1).head?
      = some ("5", "click", 60) ∧
    (∀ cell ∈ cellsOf (sync_metrics ⟨0, 61⟩ ⟨some ["5"], some ["click"], some 60, none⟩
        ["open", "click"] [⟨"1", none⟩]).1,
      cell.1 = "5" ∧ cell.2.1 = "click" ∧ 60 ≤ cell.2.2) := by decide

/-! ### Resumed-campaign checkpoint contents (claim C10) -/

/-- Claim C10 counterexample: resuming with the strict subset
`metrics_to_resume = ["b", "c"]` of the selected set `["a", "b", "c"]`, the
run writes a per-date checkpoint (during metric `c`) whose
`metrics_to_resume` is `["a", "c"]` — neither a fresh copy of the full
selected set nor the bookmark's remaining subset.  The claim that *every*
such checkpoint records the full selected set is false. -/
theorem resume_checkpoint_counterexample :
    ∃ k ∈ ckptsOf (sync_metrics ⟨0, 3⟩ ⟨some ["5"], some ["b", "c"], some 3, none⟩
        ["a", "b", "c"] []).1,
      k.metrics_to_resume ≠ ["a", "b", "c"] ∧ k.metrics_to_resume ≠ ["b", "c"] := by decide

/-! ### Resumed-campaign checkpoints re-include completed metrics (claim C10, amended) -/

/-- `list.remove` of a present element removes its first occurrence. -/
theorem removeFirst_of_mem (x : String) :
    ∀ l : List String, x ∈ l → removeFirst x l = some (l.erase x) := by
  intro l
  induction l with
  | nil => intro h; cases h
  | cons y ys ih =>
    intro h
    by_cases hyx : y = x
    · subst hyx
      simp [removeFirst, List.erase_cons_head]
    · have hx : x ∈ ys := by
        rcases List.mem_cons.mp h with h1 | h1
        · exact absurd h1.symm hyx
        · exact h1
      rw [removeFirst, if_neg hyx, ih hx]
      simp [List.erase_cons, hyx]

/-- `list.remove` succeeds only on a present element. -/
theorem mem_of_removeFirst (x : String) :
    ∀ l l' : List String, removeFirst x l = some l' → x ∈ l := by
  intro l
  induction l with
  | nil => intro l' h; cases h
  | cons y ys ih =>
    intro l' h
    by_cases hy : y = x
    · exact hy ▸ List.mem_cons_self _ _
    · rw [removeFirst, if_neg hy] at h
      cases hys : removeFirst x ys with
      | none => rw [hys] at h; cases h
      | some l3 => exact List.mem_cons_of_mem _ (ih l3 hys)

/-- What `list.remove` returns is the erasure of the first occurrence. -/
theorem removeFirst_eq_erase (x : String) (l l' : List String)
    (h : removeFirst x l = some l') : l' = l.erase x := by
  have hm := removeFirst_of_mem x l (mem_of_removeFirst x l l' h)
  rw [hm] at h
  exact (Option.some_inj.mp h).symm

/-- Every checkpoint the date loop writes carries the current
`metrics_to_resume` list. -/
theorem ckpt_dateLoopF_metrics (campaign metric : String) (ctr mtr : List String) :
    ∀ fuel cur e, ∀ k ∈ ckptsOf (dateLoopF campaign metric ctr mtr fuel cur e),
      k.metrics_to_resume = mtr := by
  intro fuel
  induction fuel with
  | zero => intro cur e k hk; cases hk
  | succ fuel ih =>
    intro cur e k hk
    by_cases h : cur ≤ e
    · simp only [dateLoopF, h, if_true, ckptsOf, List.filterMap_cons] at hk
      rcases List.mem_cons.mp hk with h1 | h1
      · rw [h1]
      · exact ih (cur + 1) e k h1
    · simp only [dateLoopF, h, if_false, ckptsOf, List.filterMap_nil] at hk
      cases hk

/-- A metric outside the iterated metric list survives in
`metrics_to_resume` through every checkpoint the metric loop writes. -/
theorem ckpt_metricLoop_mem (campaign : String) (ctr : List String)
    (startV : DateOrStr) (e : Nat) (metric : String) :
    ∀ (cm mtr : List String) (ld : Option Nat), metric ∈ mtr →
      (∀ x ∈ cm, x ≠ metric) →
      ∀ k ∈ ckptsOf (metricLoop campaign ctr startV e mtr cm ld).1,
        metric ∈ k.metrics_to_resume := by
  intro cm
  induction cm with
  | nil => intro mtr ld _ _ k hk; cases hk
  | cons m rest ih =>
    intro mtr ld hmem hne k hk
    have hdl : ∀ cur, k ∈ ckptsOf (dateLoop campaign m ctr mtr cur e) →
        metric ∈ k.metrics_to_resume := by
      intro cur hkd
      rw [ckpt_dateLoopF_metrics campaign m ctr mtr _ cur e k hkd]
      exact hmem
    have hrec : ∀ mtr2, removeFirst m mtr = some mtr2 →
        ∀ hk2 : k ∈ ckptsOf (metricLoop campaign ctr startV e mtr2 rest none).1,
        metric ∈ k.metrics_to_resume := by
      intro mtr2 hrem hk2
      have hm2 : mtr2 = mtr.erase m := removeFirst_eq_erase m mtr mtr2 hrem
      have hmem2 : metric ∈ mtr2 := by
        rw [hm2]
        exact (List.mem_erase_of_ne
          (Ne.symm (hne m (List.mem_cons_self m rest)))).2 hmem
      exact ih mtr2 none hmem2 (fun x hx => hne x (List.mem_cons_of_mem _ hx)) k hk2
    rcases ld with _ | d
    · cases startV with
      | dt s =>
        simp only [metricLoop] at hk
        cases hrem : removeFirst m mtr with
        | none => rw [hrem] at hk; exact hdl s hk
        | some mtr2 =>
          rw [hrem] at hk
          simp only [ckptsOf, List.filterMap_append] at hk
          rcases List.mem_append.mp hk with h1 | h1
          · exact hdl s h1
          · exact hrec mtr2 hrem h1
      | raw str2 => simp only [metricLoop, ckptsOf, List.filterMap_nil] at hk; cases hk
    · simp only [metricLoop] at hk
      cases hrem : removeFirst m mtr with
      | none => rw [hrem] at hk; exact hdl d hk
      | some mtr2 =>
        rw [hrem] at hk
        simp only [ckptsOf, List.filterMap_append] at hk
        rcases List.mem_append.mp hk with h1 | h1
        · exact hdl d h1
        · exact hrec mtr2 hrem h1

/-- `list.remove` of the head succeeds and returns the tail. -/
theorem removeFirst_cons_self (x : String) (l : List String) :
    removeFirst x (x :: l) = some l := by
  simp [removeFirst]

/-- The trace of `sync_metrics` is the trace of its loop stage: the final
stage only resolves `reset_stream` (raising `NameError`) and never reaches
the `finalWrite`. -/
theorem sync_metrics_fst (cfg : Config) (bm : MetricsBookmark)
    (metrics_selected : List String) (campaigns : List Campaign) :
    (sync_metrics cfg bm metrics_selected campaigns).1
      = (sync_metrics_loop cfg bm metrics_selected campaigns).1 := by
  unfold sync_metrics
  cases hr : (sync_metrics_loop cfg bm metrics_selected campaigns).2 with
  | error err => simp [hr]
  | ok u =>
    have hnc : "reset_stream" ∉ streamsModuleNames := by decide
    simp [hr, hnc]

/-- For a single-campaign work list the campaign loop's checkpoints are those
of that campaign's metric loop. -/
theorem ckpts_campaignLoop_single (metrics_selected : List String) (startV : DateOrStr)
    (e : Nat) (c0 : String) (cm : List String) (ld : Option Nat) :
    ckptsOf (campaignLoop metrics_selected startV e [c0] [c0] cm ld).1
      = ckptsOf (metricLoop c0 [c0] startV e metrics_selected cm ld).1 := by
  simp only [campaignLoop]
  cases hr : (metricLoop c0 [c0] startV e metrics_selected cm ld).2 with
  | error err => rfl
  | ok u =>
    rw [removeFirst_cons_self]
    simp [campaignLoop]

/-- Claim C10 (amended): when `sync_metrics` resumes a single-campaign
checkpoint whose `metrics_to_resume` omits some selected metric (a metric
completed before the crash), every per-date checkpoint written while
processing that first resumed campaign *re-includes* that completed metric in
its `metrics_to_resume` (the list is rebuilt from a fresh copy of the full
selected set, line 228, with only metrics completed in the current run
removed — not the bookmark's remaining subset), so a second crash during that
campaign resumes with already-completed metrics re-included. -/
theorem resume_checkpoint_reincludes_completed_metrics (s e : Nat)
    (metrics_selected bk : List String) (c0 : String) (ld : Option Nat)
    (campaigns : List Campaign) (metric : String)
    (hmem : metric ∈ metrics_selected) (hnot : metric ∉ bk) :
    ∀ k ∈ ckptsOf (sync_metrics ⟨s, e⟩ ⟨some [c0], some bk, ld, none⟩
        metrics_selected campaigns).1,
      metric ∈ k.metrics_to_resume := by
  intro k hk
  rw [sync_metrics_fst] at hk
  simp only [sync_metrics_loop] at hk
  rw [ckpts_campaignLoop_single] at hk
  exact ckpt_metricLoop_mem c0 [c0] (.dt s) e metric bk metrics_selected ld hmem
    (fun x hx hxe => hnot (hxe ▸ hx)) k hk

/-- Witness for `resume_checkpoint_reincludes_completed_metrics`: selected
metrics `["a", "b"]`, bookmark remainder `["b"]` — metric `a` (already
completed before the crash) is back in every checkpoint of the resumed
campaign. -/
theorem resume_checkpoint_reincludes_witness :
    ("a" ∈ ["a", "b"] ∧ "a" ∉ ["b"]) ∧
    ∀ k ∈ ckptsOf (sync_metrics ⟨0, 0⟩ ⟨some ["5"], some ["b"], some 0, none⟩
        ["a", "b"] []).1,
      "a" ∈ k.metrics_to_resume :=
  ⟨⟨by decide, by decide⟩,
    resume_checkpoint_reincludes_completed_metrics 0 0 ["a", "b"] ["b"] "5" (some 0)
      [] "a" (by decide) (by decide)⟩

/-! ### Flush-then-checkpoint ordering (claim C7) -/

/-- Paired traces are closed under concatenation. -/
theorem pairedTrace_append {l1 l2 : List Event} (h1 : PairedTrace l1)
    (h2 : PairedTrace l2) : PairedTrace (l1 ++ l2) := by
  induction h1 with
  | nil => simpa
  | pair c m d k rest hc hd _ ih => exact .pair c m d k _ hc hd ih

/-- The date loop emits exactly cell/checkpoint pairs, each checkpoint headed
by the running campaign and dated one past the flushed cell. -/
theorem pairedTrace_dateLoopF (campaign metric : String) (ctr mtr : List String)
    (hhead : ctr.head? = some campaign) :
    ∀ fuel cur e, PairedTrace (dateLoopF campaign metric ctr mtr fuel cur e) := by
  intro fuel
  induction fuel with
  | zero => intro cur e; exact .nil
  | succ fuel ih =>
    intro cur e
    by_cases h : cur ≤ e
    · simp only [dateLoopF, h, if_true]
      exact .pair campaign metric cur ⟨ctr, mtr, cur + 1⟩ _ hhead rfl (ih (cur + 1) e)
    · simp only [dateLoopF, h, if_false]
      exact .nil

/-- The metric loop of one campaign emits a paired trace. -/
theorem pairedTrace_metricLoop (campaign : String) (ctr : List String)
    (startV : DateOrStr) (e : Nat) (hhead : ctr.head? = some campaign) :
    ∀ (cm mtr : List String) (ld : Option Nat),
      PairedTrace (metricLoop campaign ctr startV e mtr cm ld).1 := by
  intro cm
  induction cm with
  | nil => intro mtr ld; exact .nil
  | cons metric rest ih =>
    intro mtr ld
    have hdl : ∀ cur, PairedTrace (dateLoop campaign metric ctr mtr cur e) :=
      fun cur => pairedTrace_dateLoopF campaign metric ctr mtr hhead _ cur e
    rcases ld with _ | d
    · cases startV with
      | dt s =>
        simp only [metricLoop]
        cases hrem : removeFirst metric mtr with
        | none => exact hdl s
        | some mtr2 => exact pairedTrace_append (hdl s) (ih mtr2 none)
      | raw s => exact .nil
    · simp only [metricLoop]
      cases hrem : removeFirst metric mtr with
      | none => exact hdl d
      | some mtr2 => exact pairedTrace_append (hdl d) (ih mtr2 none)

/-- The campaign loop (entered, as in the source, with
`campaigns_to_resume = campaign_ids.copy()`) emits a paired trace. -/
theorem pairedTrace_campaignLoop (metrics_selected : List String) (startV : DateOrStr)
    (e : Nat) :
    ∀ (camps cm : List String) (ld : Option Nat),
      PairedTrace (campaignLoop metrics_selected startV e camps camps cm ld).1 := by
  intro camps
  induction camps with
  | nil => intro cm ld; exact .nil
  | cons c rest ih =>
    intro cm ld
    have hml := pairedTrace_metricLoop c (c :: rest) startV e (by simp)
      cm metrics_selected ld
    simp only [campaignLoop]
    cases hr : (metricLoop c (c :: rest) startV e metrics_selected cm ld).2 with
    | error err => exact hml
    | ok u =>
      rw [removeFirst_cons_self]
      exact pairedTrace_append hml (ih metrics_selected none)

/-- The loop stage of `sync_metrics` emits a paired trace, for every
bookmark, configuration and campaign universe. -/
theorem pairedTrace_sync_metrics_loop (cfg : Config) (bm : MetricsBookmark)
    (metrics_selected : List String) (campaigns : List Campaign) :
    PairedTrace (sync_metrics_loop cfg bm metrics_selected campaigns).1 := by
  unfold sync_metrics_loop
  rcases bm with ⟨bc, bms, bdr, blmd⟩
  cases bc with
  | none => exact pairedTrace_campaignLoop _ _ _ _ _ _
  | some l =>
    cases l with
    | nil => exact pairedTrace_campaignLoop _ _ _ _ _ _
    | cons c cs =>
      cases bms with
      | none => exact .nil
      | some cm => exact pairedTrace_campaignLoop _ _ _ _ _ _

/-- Every trace `sync_metrics` produces is paired. -/
theorem pairedTrace_sync_metrics (cfg : Config) (bm : MetricsBookmark)
    (metrics_selected : List String) (campaigns : List Campaign) :
    PairedTrace (sync_metrics cfg bm metrics_selected campaigns).1 := by
  rw [sync_metrics_fst]
  exact pairedTrace_sync_metrics_loop cfg bm metrics_selected campaigns

/-- In a paired trace, any checkpoint is immediately preceded by the cell it
records progress past. -/
theorem pairedTrace_decomp {l : List Event} (h : PairedTrace l) :
    ∀ (pre : List Event) (k : Ckpt) (post : List Event),
      l = pre ++ .ckpt k :: post →
      ∃ c m d, pre.getLast? = some (.cell c m d) ∧
        k.campaigns_to_resume.head? = some c ∧ k.date_to_resume = d + 1 := by
  induction h with
  | nil =>
    intro pre k post hpre
    rcases pre with _ | ⟨x, pre2⟩ <;> simp at hpre
  | pair c m d k2 rest hc hd hrest ih =>
    intro pre k post hpre
    rcases pre with _ | ⟨x, pre2⟩
    · simp at hpre
    · rcases pre2 with _ | ⟨y, pre3⟩
      · simp only [List.cons_append, List.nil_append, List.cons.injEq] at hpre
        obtain ⟨hx, hk, hrest2⟩ := hpre
        subst hx
        cases hk
        exact ⟨c, m, d, rfl, hc, hd⟩
      · simp only [List.cons_append, List.cons.injEq] at hpre
        obtain ⟨hx, hy, hrest2⟩ := hpre
        subst hx
        subst hy
        rcases pre3 with _ | ⟨z, pre4⟩
        · obtain ⟨c', m', d', hlast, _, _⟩ := ih [] k post hrest2
          simp at hlast
        · obtain ⟨c', m', d', hlast, hkc, hkd⟩ := ih (z :: pre4) k post hrest2
          refine ⟨c', m', d', ?_, hkc, hkd⟩
          rw [List.getLast?_cons_cons, List.getLast?_cons_cons]
          exact hlast

/-- Claim C7: in every execution of the metric sync state machine — any
configuration, bookmark, metric selection and campaign universe — every
persisted checkpoint is written strictly after the sink flush of the sync
cell it records progress past: the event immediately before the checkpoint
is that cell, the checkpoint's remaining-campaign list is headed by the
cell's campaign, and its `date_to_resume` is the flushed cell's date plus
one, so no checkpoint claims progress beyond what was already flushed. -/
theorem checkpoint_after_flush (cfg : Config) (bm : MetricsBookmark)
    (metrics_selected : List String) (campaigns : List Campaign)
    (pre : List Event) (k : Ckpt) (post : List Event)
    (h : (sync_metrics cfg bm metrics_selected campaigns).1 = pre ++ .ckpt k :: post) :
    ∃ c m d, pre.getLast? = some (.cell c m d) ∧
      k.campaigns_to_resume.head? = some c ∧ k.date_to_resume = d + 1 :=
  pairedTrace_decomp (pairedTrace_sync_metrics cfg bm metrics_selected campaigns)
    pre k post h

/-- Witness for `checkpoint_after_flush` on a one-cell fresh run. -/
theorem checkpoint_after_flush_witness :
    (sync_metrics ⟨0, 0⟩ {} ["open"] [⟨"1", none⟩]).1
      = [Event.cell "1" "open" 0] ++ .ckpt ⟨["1"], ["open"], 1⟩ :: [] ∧
    ∃ c m d, [Event.cell "1" "open" 0].getLast? = some (.cell c m d) ∧
      (Ckpt.mk ["1"] ["open"] 1).campaigns_to_resume.head? = some c ∧
      (Ckpt.mk ["1"] ["open"] 1).date_to_resume = d + 1 :=
  ⟨by decide,
    checkpoint_after_flush ⟨0, 0⟩ {} ["open"] [⟨"1", none⟩]
      [Event.cell "1" "open" 0] ⟨["1"], ["open"], 1⟩ [] (by decide)⟩

/-! ### Resumption without gaps (claim C2) -/

/-- Cells distribute over trace concatenation. -/
theorem cellsOf_append (l1 l2 : List Event) :
    cellsOf (l1 ++ l2) = cellsOf l1 ++ cellsOf l2 :=
  List.filterMap_append l1 l2 _

/-- A checkpoint event contributes no cell. -/
theorem cellsOf_ckpt_cons (k : Ckpt) (l : List Event) :
    cellsOf (.ckpt k :: l) = cellsOf l := by
  simp [cellsOf]

/-- One-step unfolding of the canonical cell range (running case). -/
theorem cellsFor_cons (c m : String) (cur e : Nat) (h : cur ≤ e) :
    cellsFor c m cur e = (c, m, cur) :: cellsFor c m (cur + 1) e := by
  simp only [cellsFor]
  rw [dateRange_eq cur e, if_pos h, List.map_cons]

/-- One-step unfolding of the canonical cell range (finished case). -/
theorem cellsFor_nil (c m : String) (cur e : Nat) (h : ¬ cur ≤ e) :
    cellsFor c m cur e = [] := by
  simp only [cellsFor]
  rw [dateRange_eq cur e, if_neg h, List.map_nil]

/-- The cells of the date loop are exactly the cells of `cur..e`. -/
theorem cellsOf_dateLoopF (c m : String) (ctr mtr : List String) :
    ∀ fuel cur e, e + 1 - cur ≤ fuel →
      cellsOf (dateLoopF c m ctr mtr fuel cur e) = cellsFor c m cur e := by
  intro fuel
  induction fuel with
  | zero =>
    intro cur e hf
    have h : ¬ cur ≤ e := by omega
    rw [cellsFor_nil c m cur e h]
    rfl
  | succ fuel ih =>
    intro cur e hf
    by_cases h : cur ≤ e
    · have h1 : cellsOf (dateLoopF c m ctr mtr (fuel + 1) cur e)
          = (c, m, cur) :: cellsOf (dateLoopF c m ctr mtr fuel (cur + 1) e) := by
        simp [dateLoopF, h, cellsOf]
      rw [h1, ih (cur + 1) e (by omega), cellsFor_cons c m cur e h]
    · have h0 : dateLoopF c m ctr mtr (fuel + 1) cur e = [] := by
        simp [dateLoopF, h]
      rw [h0, cellsFor_nil c m cur e h]
      rfl

/-- The cells of the date loop are exactly the cells of `cur..e`. -/
theorem cellsOf_dateLoop (c m : String) (ctr mtr : List String) (cur e : Nat) :
    cellsOf (dateLoop c m ctr mtr cur e) = cellsFor c m cur e :=
  cellsOf_dateLoopF c m ctr mtr _ cur e le_rfl

/-- Erasing the head of an embedded cons. -/
theorem sublist_tail_erase {m : String} {rest mtr : List String}
    (h : List.Sublist (m :: rest) mtr) : List.Sublist rest (mtr.erase m) := by
  have h2 := h.erase m
  rwa [List.erase_cons_head] at h2

/-- One-step unfolding of the metric loop when the running metric is present
in the tracking list. -/
theorem metricLoop_cons_eq (c : String) (ctr : List String) (s e : Nat)
    (m : String) (rest mtr : List String) (ld : Option Nat) (hmem : m ∈ mtr) :
    metricLoop c ctr (.dt s) e mtr (m :: rest) ld
      = (dateLoop c m ctr mtr (ld.getD s) e
          ++ (metricLoop c ctr (.dt s) e (mtr.erase m) rest none).1,
         (metricLoop c ctr (.dt s) e (mtr.erase m) rest none).2) := by
  rcases ld with _ | d <;>
    simp [metricLoop, removeFirst_of_mem m mtr hmem]

/-- The metric loop run over a remaining list embedded in the tracking list
(as every reachable state has it) succeeds, and its cells are the canonical
ones: the first metric from the resume date, the rest from the start date. -/
theorem metricLoop_ok (c : String) (ctr : List String) (s e : Nat) :
    ∀ (cm mtr : List String) (ld : Option Nat), List.Sublist cm mtr →
      (metricLoop c ctr (.dt s) e mtr cm ld).2 = .ok () ∧
      cellsOf (metricLoop c ctr (.dt s) e mtr cm ld).1 = metricCells c s e cm ld := by
  intro cm
  induction cm with
  | nil => intro mtr ld _; exact ⟨rfl, rfl⟩
  | cons m rest ih =>
    intro mtr ld h
    have hmem : m ∈ mtr := h.subset (List.mem_cons_self m rest)
    have hsub : List.Sublist rest (mtr.erase m) := sublist_tail_erase h
    obtain ⟨ih2, ih1⟩ := ih (mtr.erase m) none hsub
    rw [metricLoop_cons_eq c ctr s e m rest mtr ld hmem]
    constructor
    · exact ih2
    · rw [cellsOf_append, cellsOf_dateLoop, ih1]
      rfl

/-- The campaign loop over remaining metrics embedded in the selection
succeeds and emits the canonical campaign cells. -/
theorem campaignLoop_ok (metrics_selected : List String) (s e : Nat) :
    ∀ (camps cm : List String) (ld : Option Nat),
      List.Sublist cm metrics_selected →
      (campaignLoop metrics_selected (.dt s) e camps camps cm ld).2 = .ok () ∧
      cellsOf (campaignLoop metrics_selected (.dt s) e camps camps cm ld).1
        = campaignCells metrics_selected s e camps cm ld := by
  intro camps
  induction camps with
  | nil => intro cm ld _; exact ⟨rfl, rfl⟩
  | cons c rest ih =>
    intro cm ld h
    obtain ⟨hm2, hm1⟩ := metricLoop_ok c (c :: rest) s e cm metrics_selected ld h
    obtain ⟨ih2, ih1⟩ := ih metrics_selected none (List.Sublist.refl _)
    constructor
    · simp only [campaignLoop, hm2, removeFirst_cons_self]
      exact ih2
    · simp only [campaignLoop, hm2, removeFirst_cons_self]
      rw [cellsOf_append, hm1, ih1]
      rfl

/-- Splitting a cons cell out of a concatenation. -/
theorem append_eq_append_cons {α : Type} (x : α) :
    ∀ (l1 l2 pre post : List α), l1 ++ l2 = pre ++ x :: post →
      (∃ post1, l1 = pre ++ x :: post1 ∧ post = post1 ++ l2) ∨
      (∃ pre2, l2 = pre2 ++ x :: post ∧ pre = l1 ++ pre2) := by
  intro l1
  induction l1 with
  | nil =>
    intro l2 pre post h
    right
    exact ⟨pre, by simpa using h, rfl⟩
  | cons a l1 ih =>
    intro l2 pre post h
    cases pre with
    | nil =>
      left
      simp only [List.cons_append, List.nil_append] at h
      injection h with ha hrest
      subst ha
      exact ⟨l1, by simp, hrest.symm⟩
    | cons p pre' =>
      simp only [List.cons_append] at h
      injection h with ha hrest
      subst ha
      rcases ih l2 pre' post hrest with ⟨post1, h1, h2⟩ | ⟨pre2, h1, h2⟩
      · left
        exact ⟨post1, by rw [List.cons_append, h1], h2⟩
      · right
        exact ⟨pre2, h1, by rw [List.cons_append, h2]⟩

/-- Any checkpoint inside a date loop carries the current campaign and metric
lists, and the trace after it holds exactly the remaining dates of the
running metric. -/
theorem dateLoopF_decomp (c m : String) (ctr mtr : List String) :
    ∀ fuel cur e, e + 1 - cur ≤ fuel →
      ∀ (pre : List Event) (k : Ckpt) (post : List Event),
        dateLoopF c m ctr mtr fuel cur e = pre ++ .ckpt k :: post →
        k.campaigns_to_resume = ctr ∧ k.metrics_to_resume = mtr ∧
        cellsOf post = cellsFor c m k.date_to_resume e := by
  intro fuel
  induction fuel with
  | zero =>
    intro cur e hf pre k post h
    simp only [dateLoopF] at h
    cases pre <;> simp at h
  | succ fuel ih =>
    intro cur e hf pre k post h
    by_cases hc : cur ≤ e
    · simp only [dateLoopF, hc, if_true] at h
      cases pre with
      | nil => simp at h
      | cons x pre2 =>
        rw [List.cons_append] at h
        injection h with hx hrest
        cases pre2 with
        | nil =>
          simp only [List.nil_append] at hrest
          injection hrest with hk hpost
          injection hk with hkk
          subst hkk
          refine ⟨rfl, rfl, ?_⟩
          rw [← hpost]
          exact cellsOf_dateLoopF c m ctr mtr fuel (cur + 1) e (by omega)
        | cons y pre3 =>
          rw [List.cons_append] at hrest
          injection hrest with hy hrest2
          exact ih (cur + 1) e (by omega) pre3 k post hrest2
    · simp only [dateLoopF, hc, if_false] at h
      cases pre <;> simp at h

/-- `dateLoop` version of `dateLoopF_decomp`. -/
theorem dateLoop_decomp (c m : String) (ctr mtr : List String) (cur e : Nat)
    (pre : List Event) (k : Ckpt) (post : List Event)
    (h : dateLoop c m ctr mtr cur e = pre ++ .ckpt k :: post) :
    k.campaigns_to_resume = ctr ∧ k.metrics_to_resume = mtr ∧
    cellsOf post = cellsFor c m k.date_to_resume e :=
  dateLoopF_decomp c m ctr mtr _ cur e le_rfl pre k post h

/-- Any checkpoint inside a (reachable) metric loop records the running
campaign list, a sublist of the iterated metrics, and the continuation cells
after it are exactly the replay of its metric/date fields. -/
theorem metricLoop_decomp (c : String) (ctr : List String) (s e : Nat) :
    ∀ (cm : List String) (ld : Option Nat) (pre : List Event) (k : Ckpt)
      (post : List Event),
      (metricLoop c ctr (.dt s) e cm cm ld).1 = pre ++ .ckpt k :: post →
      k.campaigns_to_resume = ctr ∧
      List.Sublist k.metrics_to_resume cm ∧
      cellsOf post = metricCells c s e k.metrics_to_resume (some k.date_to_resume) := by
  intro cm
  induction cm with
  | nil =>
    intro ld pre k post h
    simp only [metricLoop] at h
    cases pre <;> simp at h
  | cons m rest ih =>
    intro ld pre k post h
    rw [metricLoop_cons_eq c ctr s e m rest (m :: rest) ld
      (List.mem_cons_self m rest), List.erase_cons_head] at h
    rcases append_eq_append_cons (Event.ckpt k) _ _ pre post h with
      ⟨post1, h1, h2⟩ | ⟨pre2, h1, h2⟩
    · obtain ⟨hk1, hk2, hk3⟩ :=
        dateLoop_decomp c m ctr (m :: rest) (ld.getD s) e pre k post1 h1
      refine ⟨hk1, by rw [hk2], ?_⟩
      obtain ⟨_, hok1⟩ := metricLoop_ok c ctr s e rest rest none (List.Sublist.refl _)
      rw [h2, cellsOf_append, hk3, hok1, hk2]
      rfl
    · obtain ⟨h1a, h1b, h1c⟩ := ih none pre2 k post h1
      exact ⟨h1a, h1b.trans (List.sublist_cons_self m rest), h1c⟩

/-- Any checkpoint inside a fresh campaign loop has a nonempty campaign list,
carries remaining metrics embedded in the selection, and the continuation
cells after it are exactly the replay of the checkpoint. -/
theorem campaignLoop_decomp (metrics_selected : List String) (s e : Nat) :
    ∀ (camps : List String) (pre : List Event) (k : Ckpt) (post : List Event),
      (campaignLoop metrics_selected (.dt s) e camps camps metrics_selected none).1
        = pre ++ .ckpt k :: post →
      k.campaigns_to_resume ≠ [] ∧
      List.Sublist k.metrics_to_resume metrics_selected ∧
      cellsOf post = campaignCells metrics_selected s e k.campaigns_to_resume
        k.metrics_to_resume (some k.date_to_resume) := by
  intro camps
  induction camps with
  | nil =>
    intro pre k post h
    simp only [campaignLoop] at h
    cases pre <;> simp at h
  | cons c rest ih =>
    intro pre k post h
    obtain ⟨hm2, hm1⟩ := metricLoop_ok c (c :: rest) s e metrics_selected
      metrics_selected none (List.Sublist.refl _)
    simp only [campaignLoop, hm2, removeFirst_cons_self] at h
    rcases append_eq_append_cons (Event.ckpt k) _ _ pre post h with
      ⟨post1, h1, h2⟩ | ⟨pre2, h1, h2⟩
    · obtain ⟨hk1, hk2, hk3⟩ :=
        metricLoop_decomp c (c :: rest) s e metrics_selected none pre k post1 h1
      refine ⟨by rw [hk1]; simp, hk2, ?_⟩
      obtain ⟨_, hok1⟩ := campaignLoop_ok metrics_selected s e rest metrics_selected
        none (List.Sublist.refl _)
      rw [h2, cellsOf_append, hk3, hok1, hk1]
      rfl
    · exact ih pre2 k post h1

/-- Claim C2: for every checkpoint `sync_metrics` persists mid-run during a
fresh (uninterrupted) run, restarting `sync_metrics` from that checkpoint
emits, cell for cell, exactly the remainder of the uninterrupted run: the
fresh run's cell sequence is the cells emitted before the checkpoint followed
by the cells of the resumed run.  In particular every (campaign, metric,
date) cell of the cross product is emitted either before the checkpoint or by
the resumed run — no cell is ever skipped — and the resumed run emits only
cells of the cross product. -/
theorem sync_metrics_resume_no_gaps (s e : Nat) (metrics_selected : List String)
    (campaigns : List Campaign) (pre post : List Event) (k : Ckpt)
    (h : (sync_metrics ⟨s, e⟩ {} metrics_selected campaigns).1
          = pre ++ .ckpt k :: post) :
    cellsOf (sync_metrics ⟨s, e⟩ {} metrics_selected campaigns).1
      = cellsOf pre
        ++ cellsOf (sync_metrics ⟨s, e⟩
            ⟨some k.campaigns_to_resume, some k.metrics_to_resume,
             some k.date_to_resume, none⟩ metrics_selected campaigns).1 ∧
    ∀ cell ∈ cellsOf (sync_metrics ⟨s, e⟩ {} metrics_selected campaigns).1,
      cell ∈ cellsOf pre ∨
        cell ∈ cellsOf (sync_metrics ⟨s, e⟩
            ⟨some k.campaigns_to_resume, some k.metrics_to_resume,
             some k.date_to_resume, none⟩ metrics_selected campaigns).1 := by
  have h' := h
  rw [sync_metrics_fst] at h'
  simp only [sync_metrics_loop] at h'
  obtain ⟨hk1, hk2, hk3⟩ := campaignLoop_decomp metrics_selected s e _ pre k post h'
  have hres : cellsOf (sync_metrics ⟨s, e⟩
      ⟨some k.campaigns_to_resume, some k.metrics_to_resume,
       some k.date_to_resume, none⟩ metrics_selected campaigns).1
      = campaignCells metrics_selected s e k.campaigns_to_resume
          k.metrics_to_resume (some k.date_to_resume) := by
    rw [sync_metrics_fst]
    rcases hk1' : k.campaigns_to_resume with _ | ⟨c2, cs2⟩
    · exact absurd hk1' hk1
    · simp only [sync_metrics_loop, hk1']
      obtain ⟨_, hok⟩ := campaignLoop_ok metrics_selected s e (c2 :: cs2)
        k.metrics_to_resume (some k.date_to_resume) hk2
      exact hok
  have hmain : cellsOf (sync_metrics ⟨s, e⟩ {} metrics_selected campaigns).1
      = cellsOf pre
        ++ cellsOf (sync_metrics ⟨s, e⟩
            ⟨some k.campaigns_to_resume, some k.metrics_to_resume,
             some k.date_to_resume, none⟩ metrics_selected campaigns).1 := by
    rw [h, cellsOf_append, cellsOf_ckpt_cons, hk3, hres]
  refine ⟨hmain, ?_⟩
  intro cell hc
  rw [hmain] at hc
  exact List.mem_append.mp hc

/-- Witness for `sync_metrics_resume_no_gaps`: a one-campaign, one-metric,
two-day fresh run, split at its first checkpoint. -/
theorem sync_metrics_resume_no_gaps_witness :
    ((sync_metrics ⟨0, 1⟩ {} ["open"] [⟨"1", none⟩]).1
      = [Event.cell "1" "open" 0] ++ .ckpt ⟨["1"], ["open"], 1⟩ ::
          [Event.cell "1" "open" 1, .ckpt ⟨["1"], ["open"], 2⟩]) ∧
    (cellsOf (sync_metrics ⟨0, 1⟩ {} ["open"] [⟨"1", none⟩]).1
      = cellsOf [Event.cell "1" "open" 0]
        ++ cellsOf (sync_metrics ⟨0, 1⟩
            ⟨some ["1"], some ["open"], some 1, none⟩ ["open"] [⟨"1", none⟩]).1 ∧
     ∀ cell ∈ cellsOf (sync_metrics ⟨0, 1⟩ {} ["open"] [⟨"1", none⟩]).1,
       cell ∈ cellsOf [Event.cell "1" "open" 0] ∨
         cell ∈ cellsOf (sync_metrics ⟨0, 1⟩
             ⟨some ["1"], some ["open"], some 1, none⟩ ["open"] [⟨"1", none⟩]).1) :=
  ⟨by decide,
    sync_metrics_resume_no_gaps 0 1 ["open"] [⟨"1", none⟩]
      [Event.cell "1" "open" 0]
      [Event.cell "1" "open" 1, .ckpt ⟨["1"], ["open"], 2⟩]
      ⟨["1"], ["open"], 1⟩ (by decide)⟩

end TapEmarsys
